import Mathlib

/-!
Verification of the govice structured-logging library against its
natural-language specification.

The Go sources are shallowly embedded: buffers become `List Char`,
`json.Marshal` of the flat context structs becomes an explicit marshal
function over a small value universe, nondeterministic inputs (the current
time, the freshly generated UUID, the measured latency, the dumped raw
request) become explicit parameters, and functions that emit bytes to an `io.Writer`
return the written bytes instead.
-/

namespace Govice

/-! ### Decimal rendering of integers (model of Go's number output) -/

/-- Character for a single decimal digit `d < 10`. -/
def digitToChar (d : Nat) : Char := Char.ofNat (48 + d)

/-- Accumulator-style decimal digits of a natural number, most significant first.
Models the digit output of Go's integer formatting. -/
def natDigitsAux : Nat → List Char → List Char
  | 0, acc => acc
  | n + 1, acc => natDigitsAux ((n + 1) / 10) (digitToChar ((n + 1) % 10) :: acc)
  termination_by n _ => n
  decreasing_by exact Nat.div_lt_self (Nat.succ_pos _) (by decide)

/-- Decimal rendering of a natural number. -/
def natToChars (n : Nat) : List Char := if n = 0 then ['0'] else natDigitsAux n []

/-- Decimal rendering of an integer, with a leading minus sign when negative. -/
def intToChars : Int → List Char
  | .ofNat m => natToChars m
  | .negSucc m => '-' :: natToChars (m + 1)

/-! ### JSON string escaping (model of Go's `encoding/json` string encoder) -/

/-- Hexadecimal digit character for `d < 16`, lowercase as Go emits it. -/
def hexChar (d : Nat) : Char := if d < 10 then digitToChar d else Char.ofNat (87 + d)

/-- Escape of one character inside a JSON string, following Go's
`encoding/json` encoder with its default HTML escaping. -/
def jsonEscapeChar (c : Char) : List Char :=
  if c = '"' then ['\\', '"']
  else if c = '\\' then ['\\', '\\']
  else if c = '<' then ['\\', 'u', '0', '0', '3', 'c']
  else if c = '>' then ['\\', 'u', '0', '0', '3', 'e']
  else if c = '&' then ['\\', 'u', '0', '0', '2', '6']
  else if c = '\n' then ['\\', 'n']
  else if c = '\r' then ['\\', 'r']
  else if c = '\t' then ['\\', 't']
  else if c.toNat < 0x20 then
    ['\\', 'u', '0', '0', hexChar (c.toNat / 16), hexChar (c.toNat % 16)]
  else if c.toNat = 0x2028 then ['\\', 'u', '2', '0', '2', '8']
  else if c.toNat = 0x2029 then ['\\', 'u', '2', '0', '2', '9']
  else [c]

/-- Escape every character of a string body. -/
def jsonEscape (s : List Char) : List Char := (s.map jsonEscapeChar).flatten

/-- A JSON string literal: quote, escaped body, quote. -/
def jsonQuote (s : List Char) : List Char := '"' :: jsonEscape s ++ ['"']

/-! ### The value universe passed to `json.Marshal`

The contexts the library marshals are flat Go structs whose fields are
strings and ints, plus whatever arbitrary `interface\x7b\x7d` value a caller
hands over.  `JValue` is a field value; `.bad` stands for a value that
`json.Marshal` rejects (a channel, a function, ...).  `GoValue` is a
top-level value: a flat object, an array, or a bare primitive. -/

inductive JValue where
  | str (s : String)
  | int (n : Int)
  | bool (b : Bool)
  | bad
deriving DecidableEq, Repr

inductive GoValue where
  | obj (fields : List (String × JValue))
  | arr (elems : List JValue)
  | prim (v : JValue)
deriving DecidableEq, Repr

/-- Model of `json.Marshal` on a primitive value; `none` is a marshalling error. -/
def marshalJValue : JValue → Option (List Char)
  | .str s => some (jsonQuote s.data)
  | .int n => some (intToChars n)
  | .bool b => some (if b then "true".data else "false".data)
  | .bad => none

/-- Inner text of a marshalled object: comma-separated `"key":value` pairs in
field order; fails if any field value fails. -/
def marshalFields : List (String × JValue) → Option (List Char)
  | [] => some []
  | (k, v) :: rest =>
    match marshalJValue v, marshalFields rest with
    | some mv, some mr =>
      some (jsonQuote k.data ++ ':' :: mv ++ (match rest with | [] => [] | _ => ',' :: mr))
    | _, _ => none

/-- Inner text of a marshalled array: comma-separated values. -/
def marshalElems : List JValue → Option (List Char)
  | [] => some []
  | v :: rest =>
    match marshalJValue v, marshalElems rest with
    | some mv, some mr => some (mv ++ (match rest with | [] => [] | _ => ',' :: mr))
    | _, _ => none

/-- Model of `json.Marshal` on a top-level value. -/
def marshalGoValue : GoValue → Option (List Char)
  | .obj fs => (marshalFields fs).map (fun inner => '{' :: inner ++ ['}'])
  | .arr es => (marshalElems es).map (fun inner => '[' :: inner ++ [']'])
  | .prim v => marshalJValue v

/-! ### The record composer (log.go: `writeField`, `writeObject`, `writeDoc`) -/

/-- log.go `writeField`: writes `"key":` and then the marshalled value;
on a marshalling error the value is silently skipped (key and colon remain). -/
def writeField (key : String) (value : JValue) : List Char :=
  ('"' :: key.data ++ ['"', ':']) ++ (match marshalJValue value with
    | some b => b
    | none => [])

/-- log.go `writeObject`: marshals `v` and, when the result is a JSON object
with at least one field (length > 2, starts `\x7b`, ends `\x7d`), splices the
inner text into the buffer and returns its length; otherwise contributes
nothing and returns 0.  A `none` argument models a nil `interface\x7b\x7d`. -/
def writeObject (v : Option GoValue) : List Char × Nat :=
  match v with
  | none => ([], 0)
  | some gv =>
    match marshalGoValue gv with
    | none => ([], 0)
    | some b =>
      if 2 < b.length ∧ b.head? = some '{' ∧ b.getLast? = some '}' then
        ((b.drop 1).dropLast, b.length - 2)
      else ([], 0)

/-- log.go `writeDoc`: the full record — `time`, `lvl`, the spliced bound
context, the spliced per-call context (each followed by a comma only when it
contributed), `msg`, closed and newline-terminated.  The timestamp arrives
already formatted (`time.Format RFC3339Milli` in the source). -/
def writeDoc (timeStr lvlName : String) (ctx customCtx : Option GoValue)
    (message : String) : List Char :=
  let o1 := writeObject ctx
  let o2 := writeObject customCtx
  ('{' :: writeField "time" (.str timeStr))
    ++ (',' :: writeField "lvl" (.str lvlName))
    ++ (',' :: (o1.1 ++ (if 0 < o1.2 then [','] else [])))
    ++ (o2.1 ++ (if 0 < o2.2 then [','] else []))
    ++ writeField "msg" (.str message)
    ++ ['}', '\n']

/-! ### Log levels (log.go) -/

/-- The valid log-level names, in severity order. -/
def LogLevelNames : List String := ["DEBUG", "INFO", "WARN", "ERROR", "FATAL"]

def debugLevel : Nat := 0
def infoLevel : Nat := 1
def warnLevel : Nat := 2
def errorLevel : Nat := 3
def fatalLevel : Nat := 4

/-- Initial value of the mutable package-level default (log.go `defaultLogLevel`). -/
def defaultLogLevel : Nat := infoLevel

/-- log.go `levelByName`: case-insensitive lookup, falling back to INFO. -/
def levelByName (name : String) : Nat :=
  (LogLevelNames.findIdx? (fun nm => nm = name.toUpper)).getD infoLevel

/-- Name of a level (log.go indexes `LogLevelNames` directly). -/
def logLevelName (lvl : Nat) : String := LogLevelNames.getD lvl ""

/-! ### The context structs (context.go) -/

/-- The `LogContext` struct, with its JSON tags `trans,omitempty` … `alarm,omitempty`. -/
structure LogContext where
  transactionID : String := ""
  correlator : String := ""
  operation : String := ""
  service : String := ""
  component : String := ""
  user : String := ""
  realm : String := ""
  alarm : String := ""
deriving DecidableEq, Repr

/-- The `ReqLogContext` struct (method, path, remoteaddr, all omitempty). -/
structure ReqLogContext where
  method : String := ""
  path : String := ""
  remoteAddr : String := ""
deriving DecidableEq, Repr

/-- The `RespLogContext` struct (status, latency, location, all omitempty). -/
structure RespLogContext where
  status : Int := 0
  latency : Int := 0
  location : String := ""
deriving DecidableEq, Repr

/-- One string field under `omitempty`: dropped when the value is empty. -/
def optField (key value : String) : List (String × JValue) :=
  if value = "" then [] else [(key, .str value)]

/-- One int field under `omitempty`: dropped when the value is zero. -/
def optIntField (key : String) (value : Int) : List (String × JValue) :=
  if value = 0 then [] else [(key, .int value)]

/-- The JSON object a `LogContext` marshals to, fields in declaration order. -/
def LogContext.toGoValue (c : LogContext) : GoValue :=
  .obj (optField "trans" c.transactionID ++ optField "corr" c.correlator
    ++ optField "op" c.operation ++ optField "svc" c.service
    ++ optField "comp" c.component ++ optField "user" c.user
    ++ optField "realm" c.realm ++ optField "alarm" c.alarm)

/-- The JSON object a `ReqLogContext` marshals to. -/
def ReqLogContext.toGoValue (c : ReqLogContext) : GoValue :=
  .obj (optField "method" c.method ++ optField "path" c.path
    ++ optField "remoteaddr" c.remoteAddr)

/-- The JSON object a `RespLogContext` marshals to. -/
def RespLogContext.toGoValue (c : RespLogContext) : GoValue :=
  .obj (optIntField "status" c.status ++ optIntField "latency" c.latency
    ++ optField "location" c.location)

/-! ### `fmt.Sprintf` (the subset the library exercises)

Positional substitution for the plain verbs `%s`/`%d`/`%v`, literal `%%`,
and Go's error markers for a missing argument, an unknown verb, a bare
trailing percent, and left-over arguments (the latter without Go's echo of
the surplus values). -/

inductive FmtArg where
  | str (s : String)
  | int (n : Int)
deriving DecidableEq, Repr

/-- Textual form of an argument under `%s`/`%d`/`%v`. -/
def verbText : FmtArg → List Char
  | .str s => s.data
  | .int n => intToChars n

def sprintfLoop : List Char → List FmtArg → List Char
  | [], [] => []
  | [], _ :: _ => "%!(EXTRA)".data
  | ['%'], _ => "%!(NOVERB)".data
  | '%' :: c :: rest, args =>
    if c = '%' then '%' :: sprintfLoop rest args
    else if c = 's' ∨ c = 'd' ∨ c = 'v' then
      match args with
      | [] => '%' :: '!' :: c :: "(MISSING)".data ++ sprintfLoop rest []
      | a :: more => verbText a ++ sprintfLoop rest more
    else '%' :: '!' :: c :: "(NOVERB)".data ++ sprintfLoop rest args
  | c :: rest, args => c :: sprintfLoop rest args

/-- Model of `fmt.Sprintf` on a format string and positional arguments. -/
def sprintf (format : String) (args : List FmtArg) : String :=
  String.mk (sprintfLoop format.data args)

/-! ### The Logger (log.go)

The bound context is an `interface\x7b\x7d` in Go: nil, a (pointer to a)
`LogContext`, or anything else marshallable.  `BoundCtx` keeps the cases
apart because the middleware type-asserts it back to a `Context`.  The
output sink and the mutex are not carried: an emission's bytes are the
return value (`none` when the level filter discards the call). -/

inductive BoundCtx where
  | nilCtx
  | logCtx (c : LogContext)
  | raw (v : GoValue)
deriving DecidableEq, Repr

/-- The `interface\x7b\x7d` value the bound context marshals as. -/
def BoundCtx.toGoValue : BoundCtx → Option GoValue
  | .nilCtx => none
  | .logCtx c => some c.toGoValue
  | .raw v => some v

structure Logger where
  logLevel : Nat := defaultLogLevel
  context : BoundCtx := .nilCtx
deriving DecidableEq, Repr

/-- log.go `NewLogger` (sink defaulted to stdout in the source). -/
def NewLogger : Logger := {}

/-- log.go `(*Logger).log`: the level gate, the conditional `Sprintf`, and
the composed record.  `timeStr` stands for `time.Now()` already formatted;
the returned bytes are what `l.out.Write` receives, `none` when the call is
filtered out before any work happens. -/
def Logger.log (l : Logger) (logLevel : Nat) (context : Option GoValue)
    (timeStr message : String) (args : List FmtArg) : Option (List Char) :=
  if logLevel < l.logLevel then none
  else
    let text := if 0 < args.length then sprintf message args else message
    some (writeDoc timeStr (logLevelName logLevel) l.context.toGoValue context text)

/-- log.go `Debug`. -/
def Logger.Debug (l : Logger) (t msg : String) (args : List FmtArg) : Option (List Char) :=
  l.log debugLevel none t msg args

/-- log.go `DebugC`. -/
def Logger.DebugC (l : Logger) (ctx : Option GoValue) (t msg : String)
    (args : List FmtArg) : Option (List Char) :=
  l.log debugLevel ctx t msg args

/-- log.go `Info`. -/
def Logger.Info (l : Logger) (t msg : String) (args : List FmtArg) : Option (List Char) :=
  l.log infoLevel none t msg args

/-- log.go `InfoC`. -/
def Logger.InfoC (l : Logger) (ctx : Option GoValue) (t msg : String)
    (args : List FmtArg) : Option (List Char) :=
  l.log infoLevel ctx t msg args

/-- log.go `Warn`. -/
def Logger.Warn (l : Logger) (t msg : String) (args : List FmtArg) : Option (List Char) :=
  l.log warnLevel none t msg args

/-- log.go `WarnC`. -/
def Logger.WarnC (l : Logger) (ctx : Option GoValue) (t msg : String)
    (args : List FmtArg) : Option (List Char) :=
  l.log warnLevel ctx t msg args

/-- log.go `Error`. -/
def Logger.Error (l : Logger) (t msg : String) (args : List FmtArg) : Option (List Char) :=
  l.log errorLevel none t msg args

/-- log.go `ErrorC`. -/
def Logger.ErrorC (l : Logger) (ctx : Option GoValue) (t msg : String)
    (args : List FmtArg) : Option (List Char) :=
  l.log errorLevel ctx t msg args

/-- log.go `Fatal` (a severity label only; the process is not terminated). -/
def Logger.Fatal (l : Logger) (t msg : String) (args : List FmtArg) : Option (List Char) :=
  l.log fatalLevel none t msg args

/-- log.go `FatalC`. -/
def Logger.FatalC (l : Logger) (ctx : Option GoValue) (t msg : String)
    (args : List FmtArg) : Option (List Char) :=
  l.log fatalLevel ctx t msg args

/-- log.go `DebugRequestC` with a nil context, i.e. `DebugRequest`: emits only
when DEBUG is enabled and `httputil.DumpRequest` succeeded; `dump` carries
that external dump result. -/
def Logger.DebugRequest (l : Logger) (t message : String) (dump : Option String) :
    Option (List Char) :=
  if l.logLevel ≤ debugLevel then
    match dump with
    | some d => l.DebugC none t "%s. %s" [.str message, .str d]
    | none => none
  else none

/-! ### The typed Error and its wire form (error.go) -/

/-- error.go `Error`.  The JSON tags: `Message`, `Status`, `Alarm` are `-`
(never serialized); `Code` is `error`; `Description` is
`error_description,omitempty`. -/
structure Error where
  message : String := ""
  status : Nat := 0
  alarm : String := ""
  code : String := ""
  description : String := ""
deriving DecidableEq, Repr

/-- The JSON object `json.Marshal` sees for an `Error`, per the struct tags:
only `error` and, when non-empty, `error_description`. -/
def Error.toGoValue (e : Error) : GoValue :=
  .obj ([("error", .str e.code)] ++ optField "error_description" e.description)

/-- An HTTP response as the error path produces it. -/
structure WireResponse where
  status : Nat
  contentType : String
  body : List Char
deriving DecidableEq, Repr

/-- error.go `(*Error).Response`: marshal the error; on failure reply 500
with no body, otherwise set the JSON content type, the error's status, and
the marshalled body. -/
def Error.Response (e : Error) : WireResponse :=
  match marshalGoValue e.toGoValue with
  | none => { status := 500, contentType := "", body := [] }
  | some data => { status := e.status, contentType := "application/json", body := data }

/-- error.go `(*Error).GetResponse`: same wire content packaged as an
`http.Response` value. -/
def Error.GetResponse (e : Error) : WireResponse :=
  match marshalGoValue e.toGoValue with
  | none => { status := 500, contentType := "", body := [] }
  | some data => { status := e.status, contentType := "application/json", body := data }

/-- error.go `NewServerError`. -/
def NewServerError (message : String) : Error :=
  { message := message, status := 500, code := "server_error" }

/-- error.go `NewBadGatewayError`. -/
def NewBadGatewayError (message : String) : Error :=
  { message := message, status := 502, code := "server_error" }

/-- error.go `NewInvalidRequestError`. -/
def NewInvalidRequestError (message description : String) : Error :=
  { message := message, status := 400, code := "invalid_request", description := description }

/-- error.go `NewUnauthorizedClientError`. -/
def NewUnauthorizedClientError (message description : String) : Error :=
  { message := message, status := 403, code := "unauthorized_client",
    description := description }

/-- error.go `NotFoundError`. -/
def NotFoundError : Error :=
  { message := "not found", status := 404, code := "invalid_request",
    description := "not found" }

/-- The argument of `ReplyWithError`: the type switch distinguishes a typed
`*Error` from any other `error` value (whose `Error()` text is `msg`). -/
inductive ErrValue where
  | typed (e : Error)
  | generic (msg : String)
deriving DecidableEq, Repr

/-- What one call of `ReplyWithError` does: a single log emission (its level
and the extra per-call context handed to the logger, `none` when the plain
`Info`/`Error` methods are used) plus the wire response. -/
structure ReplyResult where
  logLevel : Nat
  logCtx : Option GoValue
  logMsg : String
  response : WireResponse
deriving DecidableEq, Repr

/-- error.go `ReplyWithError`: for a typed error, a 4xx status logs at INFO;
otherwise a non-empty alarm logs at ERROR with a `LogContext` carrying the
alarm, and any other error logs at ERROR; the wire body is the error's own
`Response`.  A non-typed error logs its text at ERROR and replies with
`NewServerError("")`.  The emission itself goes through the request's logger
(`GetLogger(r).Info` / `.ErrorC` / `.Error`). -/
def ReplyWithError (err : ErrValue) : ReplyResult :=
  match err with
  | .typed e =>
    if 400 ≤ e.status ∧ e.status < 500 then
      { logLevel := infoLevel, logCtx := none, logMsg := e.message,
        response := e.Response }
    else if e.alarm ≠ "" then
      { logLevel := errorLevel,
        logCtx := some (LogContext.toGoValue { alarm := e.alarm }),
        logMsg := e.message, response := e.Response }
    else
      { logLevel := errorLevel, logCtx := none, logMsg := e.message,
        response := e.Response }
  | .generic msg =>
    { logLevel := errorLevel, logCtx := none, logMsg := msg,
      response := (NewServerError "").Response }

/-! ### Requests, headers and the middleware (middleware.go / context.go) -/

/-- Go's `http.Header.Get`: first value for the key, `""` when absent. -/
def headerGet (h : List (String × String)) (k : String) : String :=
  match h.find? (fun p => p.1 = k) with
  | some p => p.2
  | none => ""

/-- Go's `http.Header.Add`: appends a value for the key. -/
def headerAdd (h : List (String × String)) (k v : String) : List (String × String) :=
  h ++ [(k, v)]

/-- Go's `http.Header.Set`: replaces all values for the key. -/
def headerSet (h : List (String × String)) (k v : String) : List (String × String) :=
  h.filter (fun p => p.1 ≠ k) ++ [(k, v)]

/-- The slice of `http.Request` the middleware reads and mutates. -/
structure Request where
  header : List (String × String) := []
  method : String := ""
  requestURI : String := ""
  remoteAddr : String := ""
deriving DecidableEq, Repr

/-- middleware.go `CorrelatorHTTPHeader`. -/
def CorrelatorHTTPHeader : String := "Unica-Correlator"

/-- middleware.go `RequestLogMessage`. -/
def RequestLogMessage : String := "Request"

/-- middleware.go `ResponseLogMessage`. -/
def ResponseLogMessage : String := "Response"

/-- middleware.go `InitContext`: clone the template context (`Clone` copies
the struct by value), read the inbound correlation header; when empty, fall
back to the fresh transaction id and `Add` it onto the request's headers;
then set both identifiers on the clone.  `trans` is the value
`newTransactionID()` produced (`""` when UUID generation failed); the
mutated request is returned alongside the new context. -/
def InitContext (trans : String) (r : Request) (ctxt : LogContext) :
    LogContext × Request :=
  let newCtxt := ctxt
  let corr := headerGet r.header CorrelatorHTTPHeader
  let (corr, r) :=
    if corr = "" then
      (trans, { r with header := headerAdd r.header CorrelatorHTTPHeader trans })
    else (corr, r)
  ({ newCtxt with transactionID := trans, correlator := corr }, r)

/-- What a handler does to its `http.ResponseWriter`, in call order. -/
inductive RWEvent where
  | setHeader (k v : String)
  | writeHeader (status : Int)
  | write (body : String)
deriving DecidableEq, Repr

/-- A Go runtime panic escaping a middleware. -/
inductive GoPanic where
  | nilPointerDereference
  | interfaceConversion
deriving DecidableEq, Repr

/-- The `LoggableResponseWriter.Status` value after a handler ran: the last status
written, defaulting to the preset 200. -/
def statusFromEvents (evs : List RWEvent) : Int :=
  evs.foldl (fun s e => match e with | .writeHeader c => c | _ => s) 200

/-- The response headers visible through `lw.Header()` after the handler
ran, starting from the correlator the middleware set. -/
def respHeadersAfter (corr : String) (evs : List RWEvent) : List (String × String) :=
  evs.foldl (fun h e => match e with | .setHeader k v => headerSet h k v | _ => h)
    (headerSet [] CorrelatorHTTPHeader corr)

/-- middleware.go `WithLog` (the revision at config.go:354-386).  Inputs that
are ambient in Go are parameters here: the logger found under
`LoggerContextKey` (`none` when absent), the two formatted timestamps, the
measured latency and the `httputil.DumpRequest` output.  The result is the
ordered list of response-writer events together with the emitted records, or
the runtime panic that escapes.

Faithful to the source bug: inside `if logger == nil` the line
`logger := NewLogger()` declares a NEW variable that shadows the outer
`logger` and dies at the end of the block, so on the missing-logger path the
outer `logger` is still nil when `logger.GetLogContext()` runs, and that
call dereferences a nil `*Logger`.  (The block's `InitContext(r, &LogContext\x7b\x7d)`
side effect on the request headers is therefore unobservable downstream.)
The type assertion `.(Context)` on the bound context panics likewise when
the logger's context is not a `LogContext`. -/
def WithLog (next : Request → List RWEvent) (loggerOpt : Option Logger)
    (r : Request) (tReq tResp : String) (latencyMs : Int) (dump : Option String) :
    Except GoPanic (List RWEvent × List (List Char)) :=
  match loggerOpt with
  | none => .error .nilPointerDereference
  | some logger =>
    match logger.context with
    | .logCtx logContext =>
      let reqContext : ReqLogContext :=
        { path := r.requestURI, method := r.method, remoteAddr := r.remoteAddr }
      let rec1 := logger.InfoC (some reqContext.toGoValue) tReq RequestLogMessage []
      let rec2 := logger.DebugRequest tReq RequestLogMessage dump
      let handlerEvents := next r
      let events := RWEvent.setHeader CorrelatorHTTPHeader logContext.correlator
        :: handlerEvents
      let respContext : RespLogContext :=
        { status := statusFromEvents handlerEvents, latency := latencyMs,
          location := headerGet (respHeadersAfter logContext.correlator handlerEvents)
            "Location" }
      let rec3 := logger.InfoC (some respContext.toGoValue) tResp ResponseLogMessage []
      .ok (events, rec1.toList ++ rec2.toList ++ rec3.toList)
    | _ => .error .interfaceConversion

/-- config.go:558-561 `GetLogger` (the later revision): the single-form type
assertion `r.Context().Value(LoggerContextKey).(*Logger)` panics with an
interface-conversion error when the request context holds no logger. -/
def GetLoggerAssert (stored : Option Logger) : Except GoPanic Logger :=
  match stored with
  | none => .error .interfaceConversion
  | some l => .ok l

/-! ### Heap model of `Clone` / the context setters (context.go)

`Clone` is `a := *c; return &a`: a fresh allocation holding a field-wise
copy.  The heap is a list of `LogContext` cells, a pointer is an index;
`Clone` appends the copied cell and returns its address, the setters update
one cell in place.  All `LogContext` fields are Go strings (immutable
values), so the cell copy is the whole of the sharing question. -/

/-- context.go `(*LogContext).Clone` over an explicit heap: allocate a copy
of the cell at `p`, return the new heap and the fresh pointer. -/
def heapClone (h : List LogContext) (p : Nat) : List LogContext × Nat :=
  (h ++ [h.getD p {}], h.length)

/-- A mutation a caller can apply through a `*LogContext`. -/
inductive CtxMut where
  | setCorrelator (s : String)
  | setTransactionID (s : String)
deriving DecidableEq, Repr

/-- context.go `SetCorrelator` / `SetTransactionID` on the cell at `p`. -/
def applyMut (h : List LogContext) (p : Nat) : CtxMut → List LogContext
  | .setCorrelator s => h.set p { h.getD p {} with correlator := s }
  | .setTransactionID s => h.set p { h.getD p {} with transactionID := s }

/-- A sequence of mutations applied through the pointer `p`. -/
def applyMuts (h : List LogContext) (p : Nat) : List CtxMut → List LogContext
  | [] => h
  | m :: ms => applyMuts (applyMut h p m) p ms

/-! ### Helper predicates for the statements -/

/-- A field value `json.Marshal` accepts. -/
def JValue.good : JValue → Bool
  | .bad => false
  | _ => true

/-! ## Supporting lemmas -/

theorem natDigitsAux_length (n : Nat) : ∀ acc : List Char,
    acc.length ≤ (natDigitsAux n acc).length := by
  induction n using Nat.strong_induction_on with
  | _ n ih =>
    intro acc
    match n with
    | 0 => simp [natDigitsAux]
    | m + 1 =>
      rw [natDigitsAux]
      exact le_trans (by simp) (ih ((m + 1) / 10)
        (Nat.div_lt_self (Nat.succ_pos m) (by decide)) _)

theorem mem_natDigitsAux (n : Nat) : ∀ acc (c : Char), c ∈ natDigitsAux n acc →
    c ∈ acc ∨ ∃ d, d < 10 ∧ c = digitToChar d := by
  induction n using Nat.strong_induction_on with
  | _ n ih =>
    intro acc c hc
    match n with
    | 0 => exact Or.inl (by simpa [natDigitsAux] using hc)
    | m + 1 =>
      rw [natDigitsAux] at hc
      rcases ih ((m + 1) / 10) (Nat.div_lt_self (Nat.succ_pos m) (by decide)) _ c hc with
        h | h
      · rcases List.mem_cons.mp h with h | h
        · exact Or.inr ⟨(m + 1) % 10, Nat.mod_lt _ (by decide), h⟩
        · exact Or.inl h
      · exact Or.inr h

theorem natToChars_ne_nil (n : Nat) : natToChars n ≠ [] := by
  unfold natToChars
  split
  · simp
  · intro h
    match n, h with
    | m + 1, h =>
      rw [natDigitsAux] at h
      have := natDigitsAux_length ((m + 1) / 10)
        [digitToChar ((m + 1) % 10)]
      rw [h] at this
      simp at this

theorem mem_natToChars (n : Nat) (c : Char) (hc : c ∈ natToChars n) :
    ∃ d, d < 10 ∧ c = digitToChar d := by
  unfold natToChars at hc
  split at hc
  · exact ⟨0, by decide, by simpa using hc⟩
  · rcases mem_natDigitsAux n [] c hc with h | h
    · simp at h
    · exact h

theorem digitToChar_toNat (d : Nat) (hd : d < 10) :
    (digitToChar d).toNat = 48 + d := by
  interval_cases d <;> decide

theorem mem_intToChars_ne_brace (n : Int) (c : Char) (hc : c ∈ intToChars n) :
    c ≠ '{' := by
  have brace : ('{' : Char).toNat = 123 := by decide
  cases n with
  | ofNat m =>
    rcases mem_natToChars m c (by simpa [intToChars] using hc) with ⟨d, hd, h⟩
    intro hbad
    rw [hbad] at h
    have := digitToChar_toNat d hd
    rw [← h, brace] at this
    omega
  | negSucc m =>
    simp only [intToChars, List.mem_cons] at hc
    rcases hc with h | h
    · rw [h]; decide
    · rcases mem_natToChars _ c h with ⟨d, hd, h⟩
      intro hbad
      rw [hbad] at h
      have := digitToChar_toNat d hd
      rw [← h, brace] at this
      omega

theorem intToChars_head_not_brace (n : Int) :
    (intToChars n).head? ≠ some '{' := by
  intro h
  cases he : intToChars n with
  | nil => rw [he] at h; simp at h
  | cons a l =>
    rw [he] at h
    simp at h
    exact mem_intToChars_ne_brace n a (he ▸ List.mem_cons_self a l) h

theorem mem_intToChars_ne_nl (n : Int) (c : Char) (hc : c ∈ intToChars n) :
    c ≠ '\n' := by
  have nl : ('\n' : Char).toNat = 10 := by decide
  cases n with
  | ofNat m =>
    rcases mem_natToChars m c (by simpa [intToChars] using hc) with ⟨d, hd, h⟩
    intro hbad
    rw [hbad] at h
    have := digitToChar_toNat d hd
    rw [← h, nl] at this
    omega
  | negSucc m =>
    simp only [intToChars, List.mem_cons] at hc
    rcases hc with h | h
    · rw [h]; decide
    · rcases mem_natToChars _ c h with ⟨d, hd, h⟩
      intro hbad
      rw [hbad] at h
      have := digitToChar_toNat d hd
      rw [← h, nl] at this
      omega

theorem hexChar_ne_nl (d : Nat) (hd : d < 16) : hexChar d ≠ '\n' := by
  interval_cases d <;> decide

theorem mem_jsonEscapeChar_ne_nl (c x : Char) (hx : x ∈ jsonEscapeChar c) :
    x ≠ '\n' := by
  unfold jsonEscapeChar at hx
  by_cases h1 : c = '"'
  · rw [if_pos h1] at hx
    rcases (show x = '\\' ∨ x = '"' by simpa using hx) with h | h <;> (rw [h]; decide)
  rw [if_neg h1] at hx
  by_cases h2 : c = '\\'
  · rw [if_pos h2] at hx
    rcases (show x = '\\' ∨ x = '\\' by simpa using hx) with h | h <;> (rw [h]; decide)
  rw [if_neg h2] at hx
  by_cases h3 : c = '<'
  · rw [if_pos h3] at hx
    rcases (show x = '\\' ∨ x = 'u' ∨ x = '0' ∨ x = '0' ∨ x = '3' ∨ x = 'c' by
      simpa using hx) with h | h | h | h | h | h <;> (rw [h]; decide)
  rw [if_neg h3] at hx
  by_cases h4 : c = '>'
  · rw [if_pos h4] at hx
    rcases (show x = '\\' ∨ x = 'u' ∨ x = '0' ∨ x = '0' ∨ x = '3' ∨ x = 'e' by
      simpa using hx) with h | h | h | h | h | h <;> (rw [h]; decide)
  rw [if_neg h4] at hx
  by_cases h5 : c = '&'
  · rw [if_pos h5] at hx
    rcases (show x = '\\' ∨ x = 'u' ∨ x = '0' ∨ x = '0' ∨ x = '2' ∨ x = '6' by
      simpa using hx) with h | h | h | h | h | h <;> (rw [h]; decide)
  rw [if_neg h5] at hx
  by_cases h6 : c = '\n'
  · rw [if_pos h6] at hx
    rcases (show x = '\\' ∨ x = 'n' by simpa using hx) with h | h <;> (rw [h]; decide)
  rw [if_neg h6] at hx
  by_cases h7 : c = '\r'
  · rw [if_pos h7] at hx
    rcases (show x = '\\' ∨ x = 'r' by simpa using hx) with h | h <;> (rw [h]; decide)
  rw [if_neg h7] at hx
  by_cases h8 : c = '\t'
  · rw [if_pos h8] at hx
    rcases (show x = '\\' ∨ x = 't' by simpa using hx) with h | h <;> (rw [h]; decide)
  rw [if_neg h8] at hx
  by_cases h9 : c.toNat < 0x20
  · rw [if_pos h9] at hx
    rcases (show x = '\\' ∨ x = 'u' ∨ x = '0' ∨ x = '0' ∨
        x = hexChar (c.toNat / 16) ∨ x = hexChar (c.toNat % 16) by
      simpa using hx) with h | h | h | h | h | h
    · rw [h]; decide
    · rw [h]; decide
    · rw [h]; decide
    · rw [h]; decide
    · rw [h]; exact hexChar_ne_nl _ (by omega)
    · rw [h]; exact hexChar_ne_nl _ (Nat.mod_lt _ (by decide))
  rw [if_neg h9] at hx
  by_cases h10 : c.toNat = 0x2028
  · rw [if_pos h10] at hx
    rcases (show x = '\\' ∨ x = 'u' ∨ x = '2' ∨ x = '0' ∨ x = '2' ∨ x = '8' by
      simpa using hx) with h | h | h | h | h | h <;> (rw [h]; decide)
  rw [if_neg h10] at hx
  by_cases h11 : c.toNat = 0x2029
  · rw [if_pos h11] at hx
    rcases (show x = '\\' ∨ x = 'u' ∨ x = '2' ∨ x = '0' ∨ x = '2' ∨ x = '9' by
      simpa using hx) with h | h | h | h | h | h <;> (rw [h]; decide)
  rw [if_neg h11] at hx
  rw [show x = c by simpa using hx]
  exact h6

theorem mem_jsonEscape_ne_nl (s : List Char) (x : Char) (hx : x ∈ jsonEscape s) :
    x ≠ '\n' := by
  unfold jsonEscape at hx
  rcases List.mem_flatten.mp hx with ⟨l, hl, hxl⟩
  rcases List.mem_map.mp hl with ⟨c, _, hc⟩
  exact mem_jsonEscapeChar_ne_nl c x (hc ▸ hxl)

theorem mem_jsonQuote_ne_nl (s : List Char) (x : Char) (hx : x ∈ jsonQuote s) :
    x ≠ '\n' := by
  unfold jsonQuote at hx
  rcases List.mem_cons.mp hx with h | h
  · rw [h]; decide
  · rcases List.mem_append.mp h with h | h
    · exact mem_jsonEscape_ne_nl s x h
    · have : x = '"' := by simpa using h
      rw [this]; decide

theorem mem_marshalJValue_ne_nl (j : JValue) (cs : List Char)
    (hm : marshalJValue j = some cs) (x : Char) (hx : x ∈ cs) : x ≠ '\n' := by
  cases j with
  | str s =>
    simp only [marshalJValue, Option.some.injEq] at hm
    exact mem_jsonQuote_ne_nl s.data x (hm ▸ hx)
  | int n =>
    simp only [marshalJValue, Option.some.injEq] at hm
    exact mem_intToChars_ne_nl n x (hm ▸ hx)
  | bool b =>
    cases b <;> simp only [marshalJValue, Option.some.injEq] at hm <;>
      (rw [← hm] at hx; fin_cases hx <;> decide)
  | bad => simp [marshalJValue] at hm

theorem mem_marshalFields_ne_nl : ∀ (fs : List (String × JValue)) (cs : List Char),
    marshalFields fs = some cs → ∀ x ∈ cs, x ≠ '\n' := by
  intro fs
  induction fs with
  | nil =>
    intro cs hm x hx
    simp only [marshalFields, Option.some.injEq] at hm
    rw [← hm] at hx
    simp at hx
  | cons p rest ih =>
    intro cs hm x hx
    obtain ⟨k, v⟩ := p
    rw [marshalFields] at hm
    cases hv : marshalJValue v with
    | none => rw [hv] at hm; simp at hm
    | some mv =>
      cases hr : marshalFields rest with
      | none => rw [hv, hr] at hm; simp at hm
      | some mr =>
        rw [hv, hr] at hm
        simp only [Option.some.injEq] at hm
        rw [← hm] at hx
        have hx' : x ∈ jsonQuote k.data ∨ x = ':' ∨ x ∈ mv ∨
            x ∈ (match rest with | [] => ([] : List Char) | _ => ',' :: mr) := by
          simpa [List.mem_append, List.mem_cons, or_assoc] using hx
        rcases hx' with h | h | h | h
        · exact mem_jsonQuote_ne_nl k.data x h
        · rw [h]; decide
        · exact mem_marshalJValue_ne_nl v mv hv x h
        · match rest, h with
          | _ :: _, h =>
            rcases List.mem_cons.mp h with h | h
            · rw [h]; decide
            · exact ih mr hr x h

theorem marshalJValue_good (j : JValue) (hj : j.good = true) :
    ∃ cs, marshalJValue j = some cs ∧ cs ≠ [] := by
  cases j with
  | str s => exact ⟨_, rfl, by simp [jsonQuote]⟩
  | int n =>
    refine ⟨_, rfl, ?_⟩
    cases n with
    | ofNat m => exact natToChars_ne_nil m
    | negSucc m => simp [intToChars]
  | bool b => cases b <;> exact ⟨_, rfl, by decide⟩
  | bad => simp [JValue.good] at hj

theorem marshalFields_good : ∀ fs : List (String × JValue),
    (∀ p ∈ fs, JValue.good p.2) →
    ∃ cs, marshalFields fs = some cs ∧ (cs = [] ↔ fs = []) := by
  intro fs
  induction fs with
  | nil => exact fun _ => ⟨[], rfl, by simp⟩
  | cons p rest ih =>
    intro hgood
    obtain ⟨k, v⟩ := p
    obtain ⟨mv, hmv, _⟩ := marshalJValue_good v (hgood (k, v) (List.mem_cons_self _ _))
    obtain ⟨mr, hmr, _⟩ := ih (fun q hq => hgood q (List.mem_cons_of_mem _ hq))
    refine ⟨_, by rw [marshalFields, hmv, hmr], ?_⟩
    simp [jsonQuote]

theorem writeObject_obj_good (fs : List (String × JValue))
    (hgood : ∀ p ∈ fs, JValue.good p.2) :
    writeObject (some (.obj fs)) =
      ((marshalFields fs).getD [], ((marshalFields fs).getD []).length) := by
  obtain ⟨cs, hcs, hiff⟩ := marshalFields_good fs hgood
  have hmg : marshalGoValue (.obj fs) = some ('{' :: cs ++ ['}']) := by
    simp [marshalGoValue, hcs]
  simp only [writeObject, hmg, hcs, Option.getD_some]
  by_cases hnil : cs = []
  · subst hnil
    rw [if_neg (by simp)]
    simp
  · have hlen : 0 < cs.length := List.length_pos.mpr hnil
    rw [if_pos ?side]
    case side =>
      refine ⟨by simp; omega, by simp, ?_⟩
      rw [show ('{' :: cs ++ ['}']) = ('{' :: cs) ++ ['}'] by simp]
      exact List.getLast?_concat _
    have h1 : (('{' :: cs ++ ['}']).drop 1).dropLast = cs := by
      rw [List.drop_one, List.cons_append, List.tail_cons]
      exact List.dropLast_concat ..
    have h2 : ('{' :: cs ++ ['}']).length - 2 = cs.length := by simp
    rw [h1, h2]

theorem writeObject_none : writeObject none = ([], 0) := rfl

theorem writeObject_marshal_none (gv : GoValue) (hm : marshalGoValue gv = none) :
    writeObject (some gv) = ([], 0) := by
  simp only [writeObject, hm]

theorem writeObject_head_not_brace (gv : GoValue) (b : List Char)
    (hm : marshalGoValue gv = some b) (hh : b.head? ≠ some '{') :
    writeObject (some gv) = ([], 0) := by
  simp only [writeObject, hm]
  rw [if_neg (fun h => hh h.2.1)]

theorem writeObject_prim (j : JValue) : writeObject (some (.prim j)) = ([], 0) := by
  cases j with
  | str s =>
    exact writeObject_head_not_brace _ _ rfl (by simp [jsonQuote])
  | int n =>
    exact writeObject_head_not_brace _ _ rfl (intToChars_head_not_brace n)
  | bool b => cases b <;> decide
  | bad => rfl

theorem writeObject_arr (es : List JValue) : writeObject (some (.arr es)) = ([], 0) := by
  cases he : marshalElems es with
  | none =>
    exact writeObject_marshal_none _ (by simp [marshalGoValue, he])
  | some inner =>
    exact writeObject_head_not_brace _ ('[' :: inner ++ [']'])
      (by simp [marshalGoValue, he]) (by simp)

theorem writeObject_obj_nil : writeObject (some (.obj [])) = ([], 0) := by decide

theorem writeDoc_obj_obj (t lvlName msg : String) (fs1 fs2 : List (String × JValue))
    (h1 : ∀ p ∈ fs1, JValue.good p.2) (h2 : ∀ p ∈ fs2, JValue.good p.2) :
    writeDoc t lvlName (some (.obj fs1)) (some (.obj fs2)) msg =
      ('{' :: writeField "time" (.str t))
        ++ (',' :: writeField "lvl" (.str lvlName))
        ++ (',' :: ((marshalFields fs1).getD [] ++ (if fs1 = [] then [] else [','])))
        ++ ((marshalFields fs2).getD [] ++ (if fs2 = [] then [] else [',']))
        ++ writeField "msg" (.str msg)
        ++ ['}', '\n'] := by
  obtain ⟨cs1, hcs1, hiff1⟩ := marshalFields_good fs1 h1
  obtain ⟨cs2, hcs2, hiff2⟩ := marshalFields_good fs2 h2
  have e1 : (if 0 < cs1.length then ([','] : List Char) else []) =
      (if fs1 = [] then [] else [',']) := by
    by_cases hf : fs1 = []
    · have : cs1 = [] := hiff1.mpr hf
      simp [hf, this]
    · have : cs1 ≠ [] := fun h => hf (hiff1.mp h)
      simp [hf, List.length_pos.mpr this]
  have e2 : (if 0 < cs2.length then ([','] : List Char) else []) =
      (if fs2 = [] then [] else [',']) := by
    by_cases hf : fs2 = []
    · have : cs2 = [] := hiff2.mpr hf
      simp [hf, this]
    · have : cs2 ≠ [] := fun h => hf (hiff2.mp h)
      simp [hf, List.length_pos.mpr this]
  simp only [writeDoc, writeObject_obj_good fs1 h1, writeObject_obj_good fs2 h2,
    hcs1, hcs2, Option.getD_some, e1, e2]

theorem mem_writeField_str_ne_nl (k s : String) (hk : ∀ x ∈ k.data, x ≠ '\n')
    (x : Char) (hx : x ∈ writeField k (.str s)) : x ≠ '\n' := by
  unfold writeField marshalJValue at hx
  have hx' : x = '"' ∨ x ∈ k.data ∨ x = '"' ∨ x = ':' ∨ x ∈ jsonQuote s.data := by
    simpa [List.mem_append, List.mem_cons, or_assoc] using hx
  rcases hx' with h | h | h | h | h
  · rw [h]; decide
  · exact hk x h
  · rw [h]; decide
  · rw [h]; decide
  · exact mem_jsonQuote_ne_nl _ x h

theorem writeDoc_obj_obj_single_line (t lvlName msg : String)
    (fs1 fs2 : List (String × JValue))
    (h1 : ∀ p ∈ fs1, JValue.good p.2) (h2 : ∀ p ∈ fs2, JValue.good p.2) :
    ∃ body, writeDoc t lvlName (some (.obj fs1)) (some (.obj fs2)) msg
      = body ++ ['\n'] ∧ '\n' ∉ body := by
  obtain ⟨cs1, hcs1, _⟩ := marshalFields_good fs1 h1
  obtain ⟨cs2, hcs2, _⟩ := marshalFields_good fs2 h2
  refine ⟨('{' :: writeField "time" (.str t))
    ++ (',' :: writeField "lvl" (.str lvlName))
    ++ (',' :: ((marshalFields fs1).getD [] ++ (if fs1 = [] then [] else [','])))
    ++ ((marshalFields fs2).getD [] ++ (if fs2 = [] then [] else [',']))
    ++ writeField "msg" (.str msg)
    ++ ['}'], ?_, ?_⟩
  · rw [writeDoc_obj_obj t lvlName msg fs1 fs2 h1 h2]
    simp [List.append_assoc]
  · intro hmem
    have hcomma : ∀ fs : List (String × JValue),
        '\n' ∈ (if fs = [] then ([] : List Char) else [',']) → False := by
      intro fs h
      split at h <;> simp at h
    have hmem' : '\n' = '{' ∨ '\n' ∈ writeField "time" (.str t) ∨ '\n' = ','
        ∨ '\n' ∈ writeField "lvl" (.str lvlName) ∨ '\n' = ','
        ∨ '\n' ∈ (marshalFields fs1).getD []
        ∨ '\n' ∈ (if fs1 = [] then ([] : List Char) else [','])
        ∨ '\n' ∈ (marshalFields fs2).getD []
        ∨ '\n' ∈ (if fs2 = [] then ([] : List Char) else [','])
        ∨ '\n' ∈ writeField "msg" (.str msg) ∨ '\n' = '}' := by
      simpa only [List.mem_append, List.mem_cons, List.not_mem_nil, or_false,
        or_assoc] using hmem
    rcases hmem' with h | h | h | h | h | h | h | h | h | h | h
    · exact absurd h (by decide)
    · exact mem_writeField_str_ne_nl "time" t (by decide) '\n' h rfl
    · exact absurd h (by decide)
    · exact mem_writeField_str_ne_nl "lvl" lvlName (by decide) '\n' h rfl
    · exact absurd h (by decide)
    · rw [hcs1] at h
      exact mem_marshalFields_ne_nl fs1 cs1 hcs1 '\n' (by simpa using h) rfl
    · exact hcomma fs1 h
    · rw [hcs2] at h
      exact mem_marshalFields_ne_nl fs2 cs2 hcs2 '\n' (by simpa using h) rfl
    · exact hcomma fs2 h
    · exact mem_writeField_str_ne_nl "msg" msg (by decide) '\n' h rfl
    · exact absurd h (by decide)

/-! ## Claims -/

/-- C1: for every logger minimum level M and every emission at level L (both
among DEBUG=0 < INFO=1 < WARN=2 < ERROR=3 < FATAL=4), `Logger.log` writes a
record iff L ≥ M; when L < M the call returns `none` — no formatting and no
output bytes — and the `Debug`..`FatalC` entry points are exactly `log` at
their respective levels, so the same holds through each of them. -/
theorem C1_level_filtering (M L : Fin 5) (bound : BoundCtx) (ctx : Option GoValue)
    (t msg : String) (args : List FmtArg) :
    ((({ logLevel := M.val, context := bound } : Logger).log L.val ctx t msg args).isSome
        ↔ M.val ≤ L.val)
    ∧ (L.val < M.val →
        ({ logLevel := M.val, context := bound } : Logger).log L.val ctx t msg args = none)
    ∧ (∀ l : Logger,
        l.Debug t msg args = l.log debugLevel none t msg args
      ∧ l.DebugC ctx t msg args = l.log debugLevel ctx t msg args
      ∧ l.Info t msg args = l.log infoLevel none t msg args
      ∧ l.InfoC ctx t msg args = l.log infoLevel ctx t msg args
      ∧ l.Warn t msg args = l.log warnLevel none t msg args
      ∧ l.WarnC ctx t msg args = l.log warnLevel ctx t msg args
      ∧ l.Error t msg args = l.log errorLevel none t msg args
      ∧ l.ErrorC ctx t msg args = l.log errorLevel ctx t msg args
      ∧ l.Fatal t msg args = l.log fatalLevel none t msg args
      ∧ l.FatalC ctx t msg args = l.log fatalLevel ctx t msg args) := by
  refine ⟨⟨?_, ?_⟩, ?_, fun l => ⟨rfl, rfl, rfl, rfl, rfl, rfl, rfl, rfl, rfl, rfl⟩⟩
  · intro hs
    by_contra hlt
    push_neg at hlt
    simp [Logger.log, hlt] at hs
  · intro hle
    simp [Logger.log, Nat.not_lt.mpr hle]
  · intro hlt
    simp [Logger.log, hlt]

theorem C1_level_filtering_witness :
    ({ logLevel := 2, context := .nilCtx } : Logger).log 1 none "T" "m" [] = none
    ∧ (({ logLevel := 1, context := .nilCtx } : Logger).log 2 none "T" "m" []).isSome
      = true := by
  constructor
  · exact (C1_level_filtering 2 1 .nilCtx none "T" "m" []).2.1 (by decide)
  · have h := (C1_level_filtering 1 2 .nilCtx none "T" "m" []).1.mpr (by decide)
    simpa using h

/-- C2: the record composer emits one single-line JSON object with key order
`time`, `lvl`, the bound context's fields in declaration order, the per-call
context's fields in declaration order, then `msg` (each context followed by
its comma separator only when it contributed fields, so empty contexts are
omitted entirely), closed and followed by exactly one trailing newline; in
particular a bound context with trans="t", op="o", a call context with
method="GET" and message "hi" at INFO yield exactly
`...time...,"lvl":"INFO","trans":"t","op":"o","method":"GET","msg":"hi"`. -/
theorem C2_record_composition :
    (∀ (t lvlName msg : String) (fs1 fs2 : List (String × JValue)),
      (∀ p ∈ fs1, JValue.good p.2) → (∀ p ∈ fs2, JValue.good p.2) →
      writeDoc t lvlName (some (.obj fs1)) (some (.obj fs2)) msg =
        ('{' :: writeField "time" (.str t))
          ++ (',' :: writeField "lvl" (.str lvlName))
          ++ (',' :: ((marshalFields fs1).getD [] ++ (if fs1 = [] then [] else [','])))
          ++ ((marshalFields fs2).getD [] ++ (if fs2 = [] then [] else [',']))
          ++ writeField "msg" (.str msg)
          ++ ['}', '\n']
      ∧ ∃ body, writeDoc t lvlName (some (.obj fs1)) (some (.obj fs2)) msg
          = body ++ ['\n'] ∧ '\n' ∉ body)
    ∧ (∀ t : String,
      writeDoc t "INFO"
          (some (LogContext.toGoValue { transactionID := "t", operation := "o" }))
          (some (ReqLogContext.toGoValue { method := "GET" })) "hi"
        = ('{' :: "\"time\":".data) ++ jsonQuote t.data
            ++ ",\"lvl\":\"INFO\",\"trans\":\"t\",\"op\":\"o\",\"method\":\"GET\",\"msg\":\"hi\"".data
            ++ ['}', '\n']) := by
  constructor
  · intro t lvlName msg fs1 fs2 h1 h2
    exact ⟨writeDoc_obj_obj t lvlName msg fs1 fs2 h1 h2,
      writeDoc_obj_obj_single_line t lvlName msg fs1 fs2 h1 h2⟩
  · intro t
    have hl : LogContext.toGoValue { transactionID := "t", operation := "o" } =
        GoValue.obj [("trans", JValue.str "t"), ("op", JValue.str "o")] := by decide
    have hr : ReqLogContext.toGoValue { method := "GET" } =
        GoValue.obj [("method", JValue.str "GET")] := by decide
    rw [hl, hr,
      writeDoc_obj_obj t "INFO" "hi" _ _ (by decide) (by decide)]
    have wft : writeField "time" (.str t) = "\"time\":".data ++ jsonQuote t.data := by
      simp only [writeField, marshalJValue]
      congr 1
    rw [wft]
    rw [show (if ([("trans", JValue.str "t"), ("op", JValue.str "o")] :
        List (String × JValue)) = [] then ([] : List Char) else [',']) = [','] from by decide]
    rw [show (if ([("method", JValue.str "GET")] :
        List (String × JValue)) = [] then ([] : List Char) else [',']) = [','] from by decide]
    simp only [List.cons_append, List.append_assoc, List.cons.injEq,
      List.append_cancel_left_eq, true_and]
    decide

theorem C2_record_composition_witness :
    writeDoc "TS" "INFO" (some (.obj [("trans", .str "t"), ("op", .str "o")]))
        (some (.obj [("method", .str "GET")])) "hi"
      = ('{' ::
          "\"time\":\"TS\",\"lvl\":\"INFO\",\"trans\":\"t\",\"op\":\"o\",\"method\":\"GET\",\"msg\":\"hi\"".data)
          ++ ['}', '\n'] := by
  have h := (C2_record_composition.1 "TS" "INFO" "hi"
    [("trans", JValue.str "t"), ("op", JValue.str "o")]
    [("method", JValue.str "GET")] (by decide) (by decide)).1
  rw [h]
  decide

/-- C3: the correlation middleware adopts a non-empty inbound
`Unica-Correlator` header as the correlator and leaves the request alone;
with no (or an empty) inbound header it sets the correlator to the fresh
transaction id and appends that value to the inbound request's headers; and
`WithLog` sets the resolved correlator as the response header as its first
response-writer action, before the handler can write any body bytes. -/
theorem C3_correlator_propagation (trans : String) (r : Request) (ctxt : LogContext) :
    (headerGet r.header CorrelatorHTTPHeader ≠ "" →
      (InitContext trans r ctxt).1.correlator = headerGet r.header CorrelatorHTTPHeader
      ∧ (InitContext trans r ctxt).2 = r)
    ∧ (headerGet r.header CorrelatorHTTPHeader = "" →
      (InitContext trans r ctxt).1.correlator = trans
      ∧ (InitContext trans r ctxt).1.transactionID = trans
      ∧ (InitContext trans r ctxt).2.header
        = r.header ++ [(CorrelatorHTTPHeader, trans)]
      ∧ (r.header.find? (fun p => p.1 = CorrelatorHTTPHeader) = none →
        headerGet (InitContext trans r ctxt).2.header CorrelatorHTTPHeader = trans))
    ∧ (∀ (next : Request → List RWEvent) (lvl : Nat) (tq ts : String)
        (lat : Int) (dump : Option String) (r' : Request),
      ∃ logs, WithLog next
          (some { logLevel := lvl, context := .logCtx (InitContext trans r ctxt).1 })
          r' tq ts lat dump
        = .ok (RWEvent.setHeader CorrelatorHTTPHeader
            (InitContext trans r ctxt).1.correlator :: next r', logs)) := by
  refine ⟨?_, ?_, ?_⟩
  · intro hne
    simp [InitContext, hne]
  · intro heq
    refine ⟨by simp [InitContext, heq], by simp [InitContext, heq],
      by simp [InitContext, heq, headerAdd], ?_⟩
    intro habs
    simp [InitContext, heq, headerAdd, headerGet, List.find?_append, habs]
  · intro next lvl tq ts lat dump r'
    exact ⟨_, rfl⟩

theorem C3_correlator_propagation_witness :
    (InitContext "tid-1" { header := [("Unica-Correlator", "abc")] } {}).1.correlator
      = "abc"
    ∧ (InitContext "tid-1" { header := [] } {}).1.correlator = "tid-1"
    ∧ headerGet (InitContext "tid-1" { header := [] } {}).2.header CorrelatorHTTPHeader
      = "tid-1" := by
  refine ⟨?_, ?_, ?_⟩
  · have h := (C3_correlator_propagation "tid-1"
      { header := [("Unica-Correlator", "abc")] } {}).1 (by decide)
    exact h.1.trans (by decide)
  · exact ((C3_correlator_propagation "tid-1" { header := [] } {}).2.1 (by decide)).1
  · exact ((C3_correlator_propagation "tid-1" { header := [] } {}).2.1
      (by decide)).2.2.2 (by decide)

/-- C4 counterexample: a status-403 error carrying alarm "A1" is logged at
INFO with no extra context (the 4xx branch of `ReplyWithError` is tested
before the alarm branch), not at ERROR with the alarm attached as the claim
states. -/
theorem C4_alarm_counterexample :
    (ReplyWithError (.typed { message := "m", status := 403, alarm := "A1", code := "unauthorized_client" })).logLevel = infoLevel
    ∧ ¬ (ReplyWithError (.typed { message := "m", status := 403, alarm := "A1", code := "unauthorized_client" })).logLevel = errorLevel
    ∧ (ReplyWithError (.typed { message := "m", status := 403, alarm := "A1", code := "unauthorized_client" })).logCtx = none := by
  refine ⟨rfl, by decide, rfl⟩

/-- C4 (amended): `ReplyWithError` logs a 4xx-status typed error at INFO with
no extra context even when an alarm is set (the 4xx test precedes the alarm
test); a non-4xx error with a non-empty alarm is logged at ERROR with a
context carrying the alarm; any other non-4xx error is logged at ERROR; in
particular a status-400 error with no alarm emits one INFO record. -/
theorem C4_status_class_logging (e : Error) :
    (400 ≤ e.status ∧ e.status < 500 →
      (ReplyWithError (.typed e)).logLevel = infoLevel
      ∧ (ReplyWithError (.typed e)).logCtx = none)
    ∧ (¬(400 ≤ e.status ∧ e.status < 500) → e.alarm ≠ "" →
      (ReplyWithError (.typed e)).logLevel = errorLevel
      ∧ (ReplyWithError (.typed e)).logCtx
        = some (LogContext.toGoValue { alarm := e.alarm }))
    ∧ (¬(400 ≤ e.status ∧ e.status < 500) → e.alarm = "" →
      (ReplyWithError (.typed e)).logLevel = errorLevel
      ∧ (ReplyWithError (.typed e)).logCtx = none) := by
  refine ⟨?_, ?_, ?_⟩
  · intro h
    simp [ReplyWithError, h]
  · intro h ha
    simp [ReplyWithError, h, ha]
  · intro h ha
    simp [ReplyWithError, h, ha]

theorem C4_status_class_logging_witness :
    ((ReplyWithError (.typed { message := "m", status := 400, code := "invalid_request" })).logLevel = infoLevel)
    ∧ ((ReplyWithError (.typed { message := "m", status := 501, alarm := "A1", code := "invalid" })).logLevel = errorLevel
      ∧ (ReplyWithError (.typed { message := "m", status := 501, alarm := "A1", code := "invalid" })).logCtx
        = some (LogContext.toGoValue { alarm := "A1" })) := by
  constructor
  · exact ((C4_status_class_logging { message := "m", status := 400, code := "invalid_request" }).1 (by decide)).1
  · exact (C4_status_class_logging { message := "m", status := 501, alarm := "A1", code := "invalid" }).2.1 (by decide) (by decide)

/-- C5: the wire body of a typed `Error` is exactly the object holding
`error` (the code) and — only when non-empty — `error_description`; the
log-only `message`, the `status` and the `alarm` never influence the body;
the HTTP status line carries the error's status; `GetResponse` packages the
same status and body. -/
theorem C5_error_wire_body (e : Error) :
    e.Response.status = e.status
    ∧ e.GetResponse = e.Response
    ∧ e.Response.contentType = "application/json"
    ∧ e.Response.body = ('{' :: "\"error\":".data) ++ jsonQuote e.code.data
        ++ (if e.description = "" then []
            else ",\"error_description\":".data ++ jsonQuote e.description.data)
        ++ ['}']
    ∧ (∀ m s a,
        (Error.Response { e with message := m, status := s, alarm := a }).body
          = e.Response.body) := by
  by_cases hd : e.description = ""
  · have hm : marshalGoValue e.toGoValue =
        some ('{' :: (jsonQuote "error".data ++ (':' :: jsonQuote e.code.data) ++ [])
          ++ ['}']) := by
      simp [Error.toGoValue, optField, hd, marshalGoValue, marshalFields, marshalJValue]
    refine ⟨by simp [Error.Response, hm], rfl, by simp [Error.Response, hm], ?_, ?_⟩
    · simp only [Error.Response, hm, if_pos hd]
      have hqa : jsonQuote "error".data = ['"', 'e', 'r', 'r', 'o', 'r', '"'] := by decide
      simp [hqa, List.cons_append, List.append_assoc]
    · intro m s a
      have ht : Error.toGoValue { e with message := m, status := s, alarm := a }
          = e.toGoValue := rfl
      simp [Error.Response, ht, hm]
  · have hm : marshalGoValue e.toGoValue =
        some ('{' :: (jsonQuote "error".data ++ (':' :: jsonQuote e.code.data)
          ++ (',' :: (jsonQuote "error_description".data
            ++ (':' :: jsonQuote e.description.data) ++ []))) ++ ['}']) := by
      simp [Error.toGoValue, optField, hd, marshalGoValue, marshalFields, marshalJValue]
    refine ⟨by simp [Error.Response, hm], rfl, by simp [Error.Response, hm], ?_, ?_⟩
    · simp only [Error.Response, hm, if_neg hd]
      have hqa : jsonQuote "error".data = ['"', 'e', 'r', 'r', 'o', 'r', '"'] := by decide
      have hqb : jsonQuote "error_description".data = ['"', 'e', 'r', 'r', 'o', 'r', '_',
          'd', 'e', 's', 'c', 'r', 'i', 'p', 't', 'i', 'o', 'n', '"'] := by decide
      simp [hqa, hqb, List.cons_append, List.append_assoc]
    · intro m s a
      have ht : Error.toGoValue { e with message := m, status := s, alarm := a }
          = e.toGoValue := rfl
      simp [Error.Response, ht, hm]

theorem applyMuts_getD_ne : ∀ (muts : List CtxMut) (h : List LogContext) (q p : Nat),
    p ≠ q → (applyMuts h q muts).getD p {} = h.getD p {} := by
  intro muts
  induction muts with
  | nil => intro h q p _; rfl
  | cons m ms ih =>
    intro h q p hne
    rw [applyMuts, ih _ q p hne]
    cases m <;>
      simp only [applyMut] <;>
      rw [List.getD_eq_getElem?_getD, List.getElem?_set_ne (fun hqp => hne hqp.symm),
        ← List.getD_eq_getElem?_getD]

/-- C6: cloning a context cell and then applying any sequence of
`SetCorrelator`/`SetTransactionID` mutations through the clone's pointer
leaves the source cell — every one of its fields — unchanged: the clone is a
fresh allocation sharing no mutable state with its source. -/
theorem C6_clone_independence (h : List LogContext) (p : Nat) (muts : List CtxMut)
    (hp : p < h.length) :
    (heapClone h p).2 ≠ p
    ∧ (applyMuts (heapClone h p).1 (heapClone h p).2 muts).getD p {} = h.getD p {} := by
  constructor
  · show h.length ≠ p
    omega
  · rw [show (heapClone h p).2 = h.length from rfl,
      show (heapClone h p).1 = h ++ [h.getD p {}] from rfl,
      applyMuts_getD_ne muts _ _ _ (by omega),
      List.getD_eq_getElem?_getD, List.getElem?_append_left hp,
      ← List.getD_eq_getElem?_getD]

theorem C6_clone_independence_witness :
    (applyMuts (heapClone [{ correlator := "before" }] 0).1
        (heapClone [{ correlator := "before" }] 0).2
        [.setCorrelator "x", .setTransactionID "y"]).getD 0 {}
      = { correlator := "before" }
    ∧ ((applyMuts (heapClone [{ correlator := "before" }] 0).1
        (heapClone [{ correlator := "before" }] 0).2
        [.setCorrelator "x", .setTransactionID "y"]).getD 0 {}).correlator
      = "before" := by
  have h := (C6_clone_independence [{ correlator := "before" }] 0
    [.setCorrelator "x", .setTransactionID "y"] (by decide)).2
  exact ⟨h.trans (by decide), by rw [h]; decide⟩

/-- C7 (code bug): when no Logger is stored in the request context, `WithLog`
does not recover with a lazily constructed default logger — the shadowed
`logger :=` inside the nil-check leaves the outer variable nil and the
middleware panics on the nil dereference at `logger.GetLogContext()`; the
later revision's `GetLogger` likewise panics on its unchecked type
assertion.  The request fails instead of completing normally. -/
theorem C7_missing_logger_panics (next : Request → List RWEvent) (r : Request)
    (tReq tResp : String) (lat : Int) (dump : Option String) :
    WithLog next none r tReq tResp lat dump = .error .nilPointerDereference
    ∧ GetLoggerAssert none = (Except.error .interfaceConversion : Except GoPanic Logger) :=
  ⟨rfl, rfl⟩

/-- C8: a per-call or bound context that `json.Marshal` rejects is silently
dropped: the emission still happens (no panic, no error surfaces to the
caller), produces the same record as if the context were absent, and — the
model being stateless per call — later calls on the same logger behave
exactly as usual. -/
theorem C8_unserializable_context_dropped (M L : Nat) (bound : BoundCtx)
    (t msg : String) (args : List FmtArg) (v : GoValue)
    (hv : marshalGoValue v = none) :
    ({ logLevel := M, context := bound } : Logger).log L (some v) t msg args
      = ({ logLevel := M, context := bound } : Logger).log L none t msg args
    ∧ (∀ w : GoValue, marshalGoValue w = none →
        ({ logLevel := M, context := .raw w } : Logger).log L (some v) t msg args
        = ({ logLevel := M, context := .nilCtx } : Logger).log L none t msg args)
    ∧ (¬ L < M →
        (({ logLevel := M, context := bound } : Logger).log L (some v) t msg args).isSome)
    ∧ (∀ (L2 : Nat) (ctx2 : Option GoValue) (t2 msg2 : String) (args2 : List FmtArg),
        ¬ L2 < M →
        (({ logLevel := M, context := bound } : Logger).log L2 ctx2 t2 msg2 args2).isSome) := by
  have hw : writeObject (some v) = ([], 0) := writeObject_marshal_none v hv
  refine ⟨?_, ?_, ?_, ?_⟩
  · by_cases h : L < M
    · simp [Logger.log, h]
    · simp [Logger.log, h, writeDoc, hw, writeObject_none]
  · intro w hwm
    by_cases h : L < M
    · simp [Logger.log, h]
    · simp [Logger.log, h, writeDoc, hw, BoundCtx.toGoValue,
        writeObject_marshal_none w hwm, writeObject_none]
  · intro h
    simp [Logger.log, h]
  · intro L2 ctx2 t2 msg2 args2 h
    simp [Logger.log, h]

theorem C8_unserializable_context_dropped_witness :
    ({ logLevel := 1, context := .nilCtx } : Logger).log 1
        (some (.obj [("ch", .bad)])) "T" "m" []
      = ({ logLevel := 1, context := .nilCtx } : Logger).log 1 none "T" "m" []
    ∧ (({ logLevel := 1, context := .nilCtx } : Logger).log 1
        (some (.obj [("ch", .bad)])) "T" "m" []).isSome = true := by
  have h := C8_unserializable_context_dropped 1 1 .nilCtx "T" "m" []
    (.obj [("ch", .bad)]) (by decide)
  exact ⟨h.1, by rw [h.1]; decide⟩

/-- C9: when `formatArgs` is empty the message reaches the record verbatim —
no `Sprintf` pass, so literal percent characters survive; when it is
non-empty the record's message is the printf-style positional substitution
`sprintf msg args`. -/
theorem C9_message_formatting (l : Logger) (L : Nat) (ctx : Option GoValue)
    (t msg : String) (args : List FmtArg) (hlvl : ¬ L < l.logLevel) :
    (args = [] → l.log L ctx t msg args
      = some (writeDoc t (logLevelName L) l.context.toGoValue ctx msg))
    ∧ (args ≠ [] → l.log L ctx t msg args
      = some (writeDoc t (logLevelName L) l.context.toGoValue ctx (sprintf msg args))) := by
  constructor
  · intro h
    subst h
    simp [Logger.log, hlvl]
  · intro h
    have hlen : 0 < args.length := List.length_pos.mpr h
    simp [Logger.log, hlvl, hlen]

theorem C9_message_formatting_witness :
    ({ logLevel := 1, context := .nilCtx } : Logger).log 1 none "T" "100%" []
      = some (writeDoc "T" "INFO" none none "100%")
    ∧ ({ logLevel := 1, context := .nilCtx } : Logger).log 1 none "T" "a %s" [.str "b"]
      = some (writeDoc "T" "INFO" none none "a b") := by
  constructor
  · exact (C9_message_formatting { logLevel := 1, context := .nilCtx } 1 none "T"
      "100%" [] (by decide)).1 rfl
  · have h := (C9_message_formatting { logLevel := 1, context := .nilCtx } 1 none "T"
      "a %s" [.str "b"] (by decide)).2 (by simp)
    rw [h]
    decide

/-- C10: a context whose JSON serialization is not an object with at least
one key — nil, the empty object, or a bare primitive or array — makes
`writeObject` contribute zero bytes and return 0, so `writeDoc` emits no
comma for it and the record equals the record with that context absent; with
both contexts in that class the record is exactly time, lvl, msg. -/
theorem C10_non_object_context_contributes_nothing (v : Option GoValue)
    (hv : v = none ∨ v = some (.obj []) ∨ (∃ j, v = some (.prim j))
      ∨ (∃ es, v = some (.arr es))) :
    writeObject v = ([], 0)
    ∧ (∀ (t lvlName msg : String) (c : Option GoValue),
        writeDoc t lvlName v c msg = writeDoc t lvlName none c msg
        ∧ writeDoc t lvlName c v msg = writeDoc t lvlName c none msg)
    ∧ (∀ t lvlName msg : String,
        writeDoc t lvlName v v msg =
          ('{' :: writeField "time" (.str t)) ++ (',' :: writeField "lvl" (.str lvlName))
            ++ [','] ++ writeField "msg" (.str msg) ++ ['}', '\n']) := by
  have hw : writeObject v = ([], 0) := by
    rcases hv with h | h | ⟨j, h⟩ | ⟨es, h⟩
    · rw [h]; rfl
    · rw [h]; exact writeObject_obj_nil
    · rw [h]; exact writeObject_prim j
    · rw [h]; exact writeObject_arr es
  refine ⟨hw, ?_, ?_⟩
  · intro t lvlName msg c
    constructor <;> simp [writeDoc, hw, writeObject_none]
  · intro t lvlName msg
    simp [writeDoc, hw, writeObject_none]

theorem C10_non_object_context_contributes_nothing_witness :
    writeObject (some (.prim (.str "hello"))) = ([], 0)
    ∧ writeDoc "T" "INFO" (some (.prim (.str "hello"))) none "m"
      = writeDoc "T" "INFO" none none "m" := by
  have h := C10_non_object_context_contributes_nothing (some (.prim (.str "hello")))
    (Or.inr (Or.inr (Or.inl ⟨_, rfl⟩)))
  exact ⟨h.1, (h.2.1 "T" "INFO" "m" none).1⟩

end Govice
